import Mathlib

/-
Verification of the downloadable-resource management subsystem of the
enroute repository.  The reconciliation pass, the cleanup passes and the
auto-update scheduler are translated from src/dataManagement/DataManager.cpp.
The group aggregator (DownloadableGroupWatcher::checkAndEmitSignals) is only
declared in the sources, so it is modelled from the specification.
-/

/-! ## QString helpers

The reconciliation code relies on `QString::section`, `QString::remove` and
`QString::endsWith`.  We reproduce their semantics on character lists. -/

/-- Join a list of strings with a single-character separator, mirroring how
QString::section reassembles the selected fields. -/
def joinSep (sep : Char) : List String → String
  | [] => ""
  | [s] => s
  | s :: ss => s ++ sep.toString ++ joinSep sep ss

/-- Split a character list at every occurrence of the separator, keeping empty
fields, exactly as QString::section counts fields by default. -/
def splitSep (sep : Char) : List Char → List (List Char)
  | [] => [[]]
  | c :: cs =>
    match splitSep sep cs with
    | [] => [[]]
    | f :: rest => if c = sep then [] :: f :: rest else (c :: f) :: rest

/-- QString::section(sep, from, to) for a single-character separator: fields
are counted with empty fields retained, negative indices count from the end,
and an out-of-range selection yields the empty string. -/
def qtSection (s : String) (sep : Char) (a b : Int) : String :=
  let fields := (splitSep sep s.toList).map (fun l => String.mk l)
  let n : Int := fields.length
  let a' := if a < 0 then a + n else a
  let b' := if b < 0 then b + n else b
  if a' ≥ n ∨ b' < 0 ∨ a' > b' then ""
  else joinSep sep ((fields.drop (max a' 0).toNat).take (b' - max a' 0 + 1).toNat)

/-- Test whether the first list is an initial segment of the second. -/
def startsWithChars : List Char → List Char → Bool
  | [], _ => true
  | _ :: _, [] => false
  | p :: ps, c :: cs => p == c && startsWithChars ps cs

/-- Helper for `removeAllOcc`; the fuel argument bounds the recursion depth
by the length of the scanned list, so that the recursion is structural. -/
def removeAllOccAux (pat : List Char) : Nat → List Char → List Char
  | 0, _ => []
  | _, [] => []
  | fuel + 1, c :: cs =>
    if !pat.isEmpty && startsWithChars pat (c :: cs) then
      removeAllOccAux pat fuel (cs.drop (pat.length - 1))
    else c :: removeAllOccAux pat fuel cs

/-- QString::remove(str): delete every occurrence of the pattern, scanning
left to right. -/
def removeAllOcc (pat : List Char) (l : List Char) : List Char :=
  removeAllOccAux pat l.length l

/-- QString::remove, on strings: `qtRemove s pat` removes every occurrence of
`pat` from `s`. -/
def qtRemove (s pat : String) : String :=
  String.mk (removeAllOcc pat.toList s.toList)

/-- QString::endsWith. -/
def qtEndsWith (s suffixStr : String) : Bool :=
  startsWithChars suffixStr.toList.reverse s.toList.reverse

/-- QString comparison, used when sorting a group: lexicographic comparison of
the character values. -/
def charListLtB : List Char → List Char → Bool
  | [], [] => false
  | [], _ :: _ => true
  | _ :: _, [] => false
  | a :: as, b :: bs =>
    if a.val < b.val then true else if b.val < a.val then false else charListLtB as bs

/-- Strict string comparison as performed by QString::operator less-than. -/
def strLtB (a b : String) : Bool := charListLtB a.toList b.toList

/-- Non-strict string comparison. -/
def strLeB (a b : String) : Bool := !(strLtB b a)

/-- Insert an element into a list in front of the first element it compares
less-or-equal to. -/
def insertLe (le : α → α → Bool) (a : α) : List α → List α
  | [] => [a]
  | b :: bs => if le a b then a :: b :: bs else b :: insertLe le a bs

/-- Insertion sort by a boolean comparison. -/
def sortLe (le : α → α → Bool) : List α → List α
  | [] => []
  | a :: as => insertLe le a (sortLe le as)

/-! ## Data model

`Downloadable` carries the fields of the C++ class that the DataManager code
reads or writes: the remote URL (an invalid `QUrl()` is `none`), the local
file name, the object name, the section, and the remote file metadata.  The
`id` field models object identity (the C++ code distinguishes objects by
pointer, e.g. in `QVector::removeAll`). -/

structure Downloadable where
  id : Nat
  url : Option String
  fileName : String
  objectName : String
  sectionName : String
  remoteFileDate : String
  remoteFileSize : Int
deriving DecidableEq, Repr

/-- One entry of the parsed maps.json manifest: the fields
`path`, `size` and `time` that `readGeoMapListFromJSONFile` reads. -/
structure MapEntry where
  path : String
  size : Int
  time : String
deriving DecidableEq, Repr

/-- The parsed top-level manifest object: base `url` and the `maps` array.
A manifest whose JSON failed to parse is represented as `none` upstream. -/
structure JsonTop where
  url : String
  maps : List MapEntry
deriving DecidableEq, Repr

/-- The writable app-data location (QStandardPaths::AppDataLocation),
abstracted to a fixed root. -/
def appDataLocation : String := "/data"

/-- The download directory, `AppDataLocation + "/aviation_maps/"`. -/
def aviationMapsDir : String := appDataLocation ++ "/aviation_maps/"

/-- Modelled from the spec: `Downloadable::hasFile` is not under src/ (only
callers are); per the spec a Resource `hasLocalFile` iff its local file
exists.  The file system under the cache root is modelled as the list of
paths of the files it contains. -/
def hasFile (disk : List String) (d : Downloadable) : Bool :=
  disk.contains d.fileName

/-- Modelled from the spec: the order of `DownloadableGroupWatcher::downloadables`
is implemented in a file not under src/; its header documents that the list is
"sorted alphabetically in ascending order, first be section() and then
secondly by file name". -/
def dlLe (a b : Downloadable) : Bool :=
  if a.sectionName == b.sectionName then strLeB a.fileName b.fileName
  else strLtB a.sectionName b.sectionName

/-- Modelled from the spec: the sorted member list returned by
`DownloadableGroup::downloadables()` (implementation not under src/),
per the documentation in DownloadableGroupWatcher.h. -/
def downloadables (g : List Downloadable) : List Downloadable :=
  sortLe dlLe g

/-- The object name computed for a manifest entry:
`path.section('.',-2,-2).section("/",-1,-1)` in `readGeoMapListFromJSONFile`. -/
def entryObjectName (path : String) : String :=
  qtSection (qtSection path '.' (-2) (-2)) '/' (-1) (-1)

/-- The section computed for a manifest entry:
`path.section('.',-2,-2).section("/",-2,-2)`. -/
def entrySectionName (path : String) : String :=
  qtSection (qtSection path '.' (-2) (-2)) '/' (-2) (-2)

/-- The object name given to a Resource wrapped around an unattached file:
the path with the download directory removed and everything from the first
dot on stripped (`remove(dir).section('.',0,0)`). -/
def unattachedObjectName (p : String) : String :=
  qtSection (qtRemove p aviationMapsDir) '.' 0 0

/-- `DataManager::unattachedFiles`: the files below the download directory
whose path is not the local file of any Downloadable of the group. -/
def unattachedFilesOf (disk : List String) (g : List Downloadable) : List String :=
  disk.filter (fun p => (downloadables g).all (fun d => d.fileName != p))

/-- The part of the DataManager state the reconciliation pass mutates: the
umbrella group `_geoMaps`, the three category sub-groups (kept as id lists),
and the next fresh object identity. -/
structure RecoState where
  geoMaps : List Downloadable
  aviationMapIds : List Nat
  baseMapIds : List Nat
  databaseIds : List Nat
  nextId : Nat
deriving DecidableEq, Repr

/-- The body of the manifest loop of `readGeoMapListFromJSONFile`: find the
first Downloadable of the remaining old list whose objectName equals the
entry name; update it in place and drop it from the old list, or else
construct a new Downloadable and add it to the umbrella group and to the
sub-group selected by the file suffix. -/
def processEntry (baseURL : String) (acc : RecoState × List Downloadable)
    (e : MapEntry) : RecoState × List Downloadable :=
  let st := acc.1
  let oldMaps := acc.2
  let nm := entryObjectName e.path
  match oldMaps.find? (fun d => d.objectName == nm) with
  | some d =>
    ({ st with geoMaps := st.geoMaps.map (fun g =>
        if g.id == d.id then { g with remoteFileDate := e.time, remoteFileSize := e.size }
        else g) },
     oldMaps.filter (fun g => g.id != d.id))
  | none =>
    let localFileName := aviationMapsDir ++ e.path
    let nd : Downloadable :=
      { id := st.nextId, url := some (baseURL ++ "/" ++ e.path),
        fileName := localFileName, objectName := nm,
        sectionName := entrySectionName e.path,
        remoteFileDate := e.time, remoteFileSize := e.size }
    ({ st with
        geoMaps := st.geoMaps ++ [nd],
        aviationMapIds :=
          if qtEndsWith localFileName "geojson" then st.aviationMapIds ++ [st.nextId]
          else st.aviationMapIds,
        baseMapIds :=
          if qtEndsWith localFileName "mbtiles" then st.baseMapIds ++ [st.nextId]
          else st.baseMapIds,
        databaseIds :=
          if qtEndsWith localFileName "txt" then st.databaseIds ++ [st.nextId]
          else st.databaseIds,
        nextId := st.nextId + 1 },
     oldMaps)

/-- Destruction of a Downloadable: the object disappears from the umbrella
group and from every sub-group (the groups hold guarded pointers that are
nulled on destruction and pruned). -/
def removeId (i : Nat) (st : RecoState) : RecoState :=
  { st with
      geoMaps := st.geoMaps.filter (fun d => d.id != i),
      aviationMapIds := st.aviationMapIds.filter (fun j => j != i),
      baseMapIds := st.baseMapIds.filter (fun j => j != i),
      databaseIds := st.databaseIds.filter (fun j => j != i) }

/-- Walk a list of Downloadables and destroy every one the `keep` test
rejects; the common shape of the leftover loop of the reconciliation pass and
of `localFileOfGeoMapChanged`. -/
def condRemove (keep : Downloadable → Bool) (st : RecoState)
    (l : List Downloadable) : RecoState :=
  l.foldl (fun st d => if keep d then st else removeId d.id st) st

/-- The leftover loop of `readGeoMapListFromJSONFile`: every object left in
the old list that has no local file is deleted; those with a file are kept
unchanged. -/
def deleteLeftovers (disk : List String) (st : RecoState)
    (l : List Downloadable) : RecoState :=
  condRemove (fun d => hasFile disk d) st l

/-- A Downloadable constructed for an unattached file: invalid URL, section
"Unsupported Maps", object name derived from the path.  The remote metadata
fields keep the defaults of a freshly constructed Downloadable. -/
def mkUnattached (i : Nat) (p : String) : Downloadable :=
  { id := i, url := none, fileName := p,
    objectName := unattachedObjectName p,
    sectionName := "Unsupported Maps",
    remoteFileDate := "", remoteFileSize := -1 }

/-- Add one Downloadable per listed path to the umbrella group. -/
def addUnattachedList (ps : List String) (st : RecoState) : RecoState :=
  ps.foldl (fun st p =>
    { st with geoMaps := st.geoMaps ++ [mkUnattached st.nextId p],
              nextId := st.nextId + 1 }) st

/-- The unattached-file block of `readGeoMapListFromJSONFile`: the list of
unattached files is computed once, then each is wrapped as a new local-only
Downloadable and added to the umbrella group. -/
def addUnattached (disk : List String) (st : RecoState) : RecoState :=
  addUnattachedList (unattachedFilesOf disk st.geoMaps) st

/-- The manifest part of `readGeoMapListFromJSONFile`: snapshot the sorted
member list, process every manifest entry, then delete the leftovers that
have no local file. -/
def manifestPhase (disk : List String) (top : JsonTop) (st : RecoState) : RecoState :=
  let oldMaps := downloadables st.geoMaps
  let r := top.maps.foldl (processEntry top.url) (st, oldMaps)
  deleteLeftovers disk r.1 r.2

/-- `DataManager::readGeoMapListFromJSONFile`: return unchanged when
maps.json has no local file or its content does not parse as JSON; otherwise
run the manifest phase followed by the unattached-file block. -/
def readGeoMapListFromJSONFile (disk : List String) (hasMapsJsonFile : Bool)
    (doc : Option JsonTop) (st : RecoState) : RecoState :=
  if !hasMapsJsonFile then st
  else
    match doc with
    | none => st
    | some top => addUnattached disk (manifestPhase disk top st)

/-- `DataManager::localFileOfGeoMapChanged`: walk the member list and destroy
every Downloadable whose URL is invalid and that has no local file. -/
def localFileOfGeoMapChanged (disk : List String) (st : RecoState) : RecoState :=
  condRemove (fun d => d.url.isSome || hasFile disk d) st (downloadables st.geoMaps)

/-- The orphan invariant of the spec: no Resource has both an invalid remote
URL and no local file. -/
def orphanFree (disk : List String) (g : List Downloadable) : Prop :=
  ∀ d ∈ g, d.url = none → d.fileName ∈ disk

instance (disk : List String) (g : List Downloadable) :
    Decidable (orphanFree disk g) := by
  unfold orphanFree
  infer_instance

/-! ## Manager-level event wiring

The DataManager constructor connects the maps.json Downloadable's
`fileContentChanged` signal to `readGeoMapListFromJSONFile` and then to
`setTimeOfLastUpdateToNow`, and its `error` signal to `errorReceiver`. -/

/-- The scheduler-facing part of the DataManager state: the persisted
timestamp `DataManager/MapListTimeStamp` and the auto-update timer. -/
structure ManagerState where
  reco : RecoState
  mapListTimeStamp : Option Int
  timerIntervalH : Nat
  timerActive : Bool
deriving DecidableEq, Repr

/-- `DataManager::setTimeOfLastUpdateToNow`: persist the current time and
restart the auto-update timer with a 24 hour interval. -/
def setTimeOfLastUpdateToNow (now : Int) (s : ManagerState) : ManagerState :=
  { s with mapListTimeStamp := some now, timerIntervalH := 24, timerActive := true }

/-- `DataManager::errorReceiver`: forward the message as one `error` event. -/
def errorReceiver (message : String) : List String := [message]

/-- Handling of the `fileContentChanged` signal of the maps.json
Downloadable: the two connected slots run in connection order —
`readGeoMapListFromJSONFile`, then `setTimeOfLastUpdateToNow`.  The second
component collects the `error` events emitted while handling the signal;
neither slot emits any. -/
def onMapsJsonFileContentChanged (disk : List String) (doc : Option JsonTop)
    (now : Int) (s : ManagerState) : ManagerState × List String :=
  let s1 := { s with reco := readGeoMapListFromJSONFile disk true doc s.reco }
  (setTimeOfLastUpdateToNow now s1, [])

/-- Handling of the `error` signal of the maps.json Downloadable: no state
changes; `errorReceiver` re-emits the message as the DataManager `error`
event. -/
def onMapsJsonError (message : String) (s : ManagerState) : ManagerState × List String :=
  (s, errorReceiver message)

/-! ## Auto-update scheduling -/

/-- qAbs, as instantiated in `autoUpdateGeoMapList`: because of the
parenthesis placement in the source the argument is the boolean comparison
promoted to an integer. -/
def qAbs (n : Int) : Int := if n < 0 then -n else n

/-- C++ bool-to-int promotion. -/
def boolToInt (b : Bool) : Int := if b then 1 else 0

/-- The outcome of one firing of the auto-update check. -/
structure AutoUpdateResult where
  timerIntervalH : Nat
  timerStarted : Bool
  downloadStarted : Bool
deriving DecidableEq, Repr

/-- `DataManager::autoUpdateGeoMapList`: `lastUpdateValid` is
`lastUpdate.isValid()` for the persisted timestamp and `daysToNow` is
`lastUpdate.daysTo(QDateTime::currentDateTime())`.  The source computes
`qAbs(lastUpdate.daysTo(...) > 6)`, i.e. qAbs applied to the comparison
result.  In the first branch the timer is restarted at 1 hour and
`updateGeoMapList` starts the manifest download; otherwise the timer is
restarted at 24 hours. -/
def autoUpdateGeoMapList (lastUpdateValid : Bool) (daysToNow : Int) : AutoUpdateResult :=
  if (!lastUpdateValid) || (qAbs (boolToInt (daysToNow > 6)) != 0) then
    { timerIntervalH := 1, timerStarted := true, downloadStarted := true }
  else
    { timerIntervalH := 24, timerStarted := true, downloadStarted := false }

/-! ## Startup and settings wiring

`deferredInitialization` connects the auto-update timer and the
`acceptedTermsChanged` signal of the settings object, runs the auto-update
check when the terms are accepted, and either reads an existing maps.json or
starts its download.  The settings handler `updateGeoMapList` calls
`startFileDownload` unconditionally.  The transition system below records,
for every call to `startFileDownload` on the manifest, the value of the
"accepted terms" gate at that moment. -/

structure SchedState where
  accepted : Bool
  initialized : Bool
  timerArmed : Bool
  mapsJsonHasFile : Bool
  lastUpdateValid : Bool
  daysToNow : Int
deriving DecidableEq, Repr

inductive SchedEv
  | deferredInit
  | setAcceptedTerms (b : Bool)
  | timerFire
deriving DecidableEq, Repr

/-- One event step.  `deferredInit` follows `deferredInitialization`; a
settings change emits `acceptedTermsChanged` only when the stored value
actually changes (the setter updates the value before emitting, so the
connected `updateGeoMapList` runs with the new value in force); a timer
firing runs `autoUpdateGeoMapList`.  The returned list holds the gate value
at each manifest download start. -/
def schedStep (s : SchedState) : SchedEv → SchedState × List Bool
  | .deferredInit =>
    let s0 := { s with initialized := true }
    let p1 : SchedState × List Bool :=
      if s0.accepted then
        let r := autoUpdateGeoMapList s0.lastUpdateValid s0.daysToNow
        ({ s0 with timerArmed := r.timerStarted },
         if r.downloadStarted then [s0.accepted] else [])
      else (s0, [])
    let p2 : List Bool :=
      if p1.1.mapsJsonHasFile then []
      else if p1.1.accepted then [p1.1.accepted] else []
    (p1.1, p1.2 ++ p2)
  | .setAcceptedTerms b =>
    if b == s.accepted then (s, [])
    else
      let s1 := { s with accepted := b }
      if s1.initialized then (s1, [b]) else (s1, [])
  | .timerFire =>
    if s.timerArmed && s.initialized then
      let r := autoUpdateGeoMapList s.lastUpdateValid s.daysToNow
      ({ s with timerArmed := r.timerStarted },
       if r.downloadStarted then [s.accepted] else [])
    else (s, [])

/-- Run a sequence of events, accumulating the download-start log. -/
def runSched (s : SchedState) : List SchedEv → SchedState × List Bool
  | [] => (s, [])
  | e :: es =>
    let r := schedStep s e
    let rest := runSched r.1 es
    (rest.1, r.2 ++ rest.2)

/-! ## Group aggregator

Modelled from the spec: the implementation of
`DownloadableGroupWatcher::checkAndEmitSignals` is not under src/ (only its
declaration and the comment that it compares the cached values and emits the
appropriate notification signals).  Spec 4.3: recompute the five derived
values, compare each against the previous cached value, emit a change
notification only on inequality, then overwrite the cache. -/

inductive TransferState
  | idle
  | downloading
  | failed
deriving DecidableEq, Repr

/-- The member state the aggregator reads, per spec 4.3. -/
structure AggMember where
  transferState : TransferState
  hasLocalFile : Bool
  localPath : String
  updatableFlag : Bool
  updateSizeBytes : Nat
deriving DecidableEq, Repr

/-- The five cached values of the group watcher. -/
structure AggCache where
  cachedDownloading : Bool
  cachedHasFile : Bool
  cachedUpdatable : Bool
  cachedFiles : List String
  cachedUpdateSize : String
deriving DecidableEq, Repr

inductive AggSignal
  | downloadingChanged (v : Bool)
  | hasFileChanged (v : Bool)
  | updatableChanged (v : Bool)
  | filesChanged (v : List String)
  | updateSizeChanged (v : String)
deriving DecidableEq, Repr

/-- Modelled from the spec: human-readable formatting of the update size;
empty string if the sum is zero. -/
def sizeString (n : Nat) : String :=
  if n == 0 then "" else toString n ++ " B"

/-- Modelled from the spec: `downloading` is the OR of the members' transfer
state being Downloading. -/
def computeDownloading (ms : List AggMember) : Bool :=
  ms.any (fun m => m.transferState == .downloading)

/-- Modelled from the spec: `hasFile` is the OR of the members'
`hasLocalFile`. -/
def computeHasFile (ms : List AggMember) : Bool :=
  ms.any (fun m => m.hasLocalFile)

/-- Modelled from the spec: `updatable` is the OR of the members'
`isUpdatable`. -/
def computeUpdatable (ms : List AggMember) : Bool :=
  ms.any (fun m => m.updatableFlag)

/-- Modelled from the spec: `files` is the sorted list of local paths of the
members that have a local file. -/
def computeFiles (ms : List AggMember) : List String :=
  sortLe strLeB ((ms.filter (fun m => m.hasLocalFile)).map (fun m => m.localPath))

/-- Modelled from the spec: `updateSize` is the formatted sum of
`updateSizeBytes` over the updatable members. -/
def computeUpdateSize (ms : List AggMember) : String :=
  sizeString (((ms.filter (fun m => m.updatableFlag)).map
    (fun m => m.updateSizeBytes)).sum)

/-- Modelled from the spec: `DownloadableGroupWatcher::checkAndEmitSignals` —
for each derived property, emit its change notification exactly when the
recomputed value differs from the cached value, then overwrite the cache. -/
def checkAndEmitSignals (ms : List AggMember) (c : AggCache) :
    AggCache × List AggSignal :=
  let d := computeDownloading ms
  let h := computeHasFile ms
  let u := computeUpdatable ms
  let f := computeFiles ms
  let z := computeUpdateSize ms
  ({ cachedDownloading := d, cachedHasFile := h, cachedUpdatable := u,
     cachedFiles := f, cachedUpdateSize := z },
   (if d != c.cachedDownloading then [AggSignal.downloadingChanged d] else []) ++
   (if h != c.cachedHasFile then [AggSignal.hasFileChanged h] else []) ++
   (if u != c.cachedUpdatable then [AggSignal.updatableChanged u] else []) ++
   (if f != c.cachedFiles then [AggSignal.filesChanged f] else []) ++
   (if z != c.cachedUpdateSize then [AggSignal.updateSizeChanged z] else []))

/-- A group mutation the aggregator reacts to: membership addition, removal,
or a member transfer-state change. -/
inductive GroupOp
  | addMember (m : AggMember)
  | removeMember (i : Nat)
  | setTransfer (i : Nat) (t : TransferState)
deriving DecidableEq, Repr

/-- Replace the element at an index, when present. -/
def modifyAt (f : α → α) : Nat → List α → List α
  | _, [] => []
  | 0, a :: as => f a :: as
  | n + 1, a :: as => a :: modifyAt f n as

/-- Apply one group mutation to the member list. -/
def applyOp (ms : List AggMember) : GroupOp → List AggMember
  | .addMember m => ms ++ [m]
  | .removeMember i => ms.eraseIdx i
  | .setTransfer i t => modifyAt (fun m => { m with transferState := t }) i ms

/-- Run a mutation sequence; after every mutation the watcher recomputes and
possibly emits.  Each step is recorded as (members after the mutation, cache
before the recomputation, emitted signals). -/
def runWatcher (ms : List AggMember) (c : AggCache) :
    List GroupOp → List (List AggMember × AggCache × List AggSignal)
  | [] => []
  | op :: ops =>
    let ms1 := applyOp ms op
    let r := checkAndEmitSignals ms1 c
    (ms1, c, r.2) :: runWatcher ms1 r.1 ops

/-- A signal emitted against a pre-recomputation cache is honest: it carries
the freshly recomputed value and that value differs from the cached one. -/
def signalFresh (ms : List AggMember) (c : AggCache) : AggSignal → Prop
  | .downloadingChanged v => v = computeDownloading ms ∧ v ≠ c.cachedDownloading
  | .hasFileChanged v => v = computeHasFile ms ∧ v ≠ c.cachedHasFile
  | .updatableChanged v => v = computeUpdatable ms ∧ v ≠ c.cachedUpdatable
  | .filesChanged v => v = computeFiles ms ∧ v ≠ c.cachedFiles
  | .updateSizeChanged v => v = computeUpdateSize ms ∧ v ≠ c.cachedUpdateSize

/-- The list of Downloadables the unattached-file block constructs for the
listed paths, starting at the given fresh identity. -/
def unattachedBuild (n : Nat) : List String → List Downloadable
  | [] => []
  | p :: ps => mkUnattached n p :: unattachedBuild (n + 1) ps

/-- Well-formedness of the mutable state: object identities are pairwise
distinct and below the fresh-identity counter. -/
def WFr (st : RecoState) : Prop :=
  (∀ d ∈ st.geoMaps, d.id < st.nextId) ∧ (st.geoMaps.map (fun d => d.id)).Nodup

/-- The name a manifest entry reconciles under. -/
abbrev entryName (e : MapEntry) : String := entryObjectName e.path

/-- The object names of a group, in group order. -/
abbrev namesOf (g : List Downloadable) : List String :=
  g.map (fun d => d.objectName)

/-! ## Basic lemmas -/

theorem hasFile_iff (disk : List String) (d : Downloadable) :
    hasFile disk d = true ↔ d.fileName ∈ disk := by
  simp [hasFile, List.elem_iff, List.contains]

theorem insertLe_perm (le : α → α → Bool) (a : α) (l : List α) :
    List.Perm (insertLe le a l) (a :: l) := by
  induction l with
  | nil => exact List.Perm.refl _
  | cons b bs ih =>
    unfold insertLe
    by_cases h : le a b
    · simp only [h, if_true]
      exact List.Perm.refl _
    · simp only [h, if_false]
      exact (ih.cons b).trans (List.Perm.swap a b bs)

theorem sortLe_perm (le : α → α → Bool) (l : List α) :
    List.Perm (sortLe le l) l := by
  induction l with
  | nil => exact List.Perm.refl _
  | cons a as ih =>
    exact (insertLe_perm le a (sortLe le as)).trans (ih.cons a)

theorem mem_downloadables {g : List Downloadable} {d : Downloadable} :
    d ∈ downloadables g ↔ d ∈ g :=
  (sortLe_perm dlLe g).mem_iff

theorem removeId_geoMaps (i : Nat) (st : RecoState) :
    (removeId i st).geoMaps = st.geoMaps.filter (fun d => d.id != i) := rfl

theorem condRemove_cons (keep : Downloadable → Bool) (st : RecoState)
    (d : Downloadable) (l : List Downloadable) :
    condRemove keep st (d :: l) =
      condRemove keep (if keep d then st else removeId d.id st) l := by
  unfold condRemove
  simp [List.foldl_cons]

theorem condRemove_sublist (keep : Downloadable → Bool) (l : List Downloadable) :
    ∀ st : RecoState, ((condRemove keep st l).geoMaps).Sublist st.geoMaps := by
  induction l with
  | nil => intro st; exact List.Sublist.refl _
  | cons d ds ih =>
    intro st
    rw [condRemove_cons]
    by_cases h : keep d
    · simpa [h] using ih st
    · simp only [h, if_false]
      exact (ih (removeId d.id st)).trans (List.filter_sublist _)

theorem condRemove_nextId (keep : Downloadable → Bool) (l : List Downloadable) :
    ∀ st : RecoState, (condRemove keep st l).nextId = st.nextId := by
  induction l with
  | nil => intro st; rfl
  | cons d ds ih =>
    intro st
    rw [condRemove_cons]
    by_cases h : keep d
    · simpa [h] using ih st
    · simpa [h] using ih (removeId d.id st)

theorem condRemove_removes (keep : Downloadable → Bool) (l : List Downloadable)
    (x : Downloadable) (hk : keep x = false) :
    ∀ st : RecoState, x ∈ l →
      ∀ d ∈ (condRemove keep st l).geoMaps, d.id ≠ x.id := by
  induction l with
  | nil => intro st hx; cases hx
  | cons y ys ih =>
    intro st hx d hd
    rw [condRemove_cons] at hd
    rcases List.mem_cons.mp hx with hxy | hxy
    · subst hxy
      rw [if_neg (by simp [hk])] at hd
      have hsub := (condRemove_sublist keep ys (removeId x.id st)).subset hd
      rw [removeId_geoMaps] at hsub
      have h2 : (d.id != x.id) = true := by simpa using List.of_mem_filter hsub
      exact bne_iff_ne.mp h2
    · by_cases h : keep y
      · rw [if_pos h] at hd
        exact ih st hxy d hd
      · rw [if_neg h] at hd
        exact ih (removeId y.id st) hxy d hd

theorem condRemove_keeps (keep : Downloadable → Bool) (l : List Downloadable)
    (d : Downloadable) :
    ∀ st : RecoState, d ∈ st.geoMaps →
      (∀ x ∈ l, keep x = false → x.id ≠ d.id) →
      d ∈ (condRemove keep st l).geoMaps := by
  induction l with
  | nil => intro st hd _; exact hd
  | cons y ys ih =>
    intro st hd h
    rw [condRemove_cons]
    by_cases hy : keep y
    · simp only [hy, if_true]
      exact ih st hd (fun x hx => h x (List.mem_cons_of_mem y hx))
    · simp only [hy, if_false]
      refine ih (removeId y.id st) ?_ (fun x hx => h x (List.mem_cons_of_mem y hx))
      rw [removeId_geoMaps]
      refine List.mem_filter.mpr ⟨hd, ?_⟩
      have hne : y.id ≠ d.id := h y (List.mem_cons_self y ys) (eq_false_of_ne_true (by simpa using hy))
      simpa using fun hEq => hne hEq.symm

theorem condRemove_id_of_all_keep (keep : Downloadable → Bool)
    (l : List Downloadable) :
    ∀ st : RecoState, (∀ x ∈ l, keep x = true) → condRemove keep st l = st := by
  induction l with
  | nil => intro st _; rfl
  | cons y ys ih =>
    intro st h
    rw [condRemove_cons, h y (List.mem_cons_self y ys)]
    simp only [if_true]
    exact ih st (fun x hx => h x (List.mem_cons_of_mem y hx))

theorem addUnattachedList_fields (ps : List String) :
    ∀ st : RecoState,
      (addUnattachedList ps st).geoMaps = st.geoMaps ++ unattachedBuild st.nextId ps ∧
      (addUnattachedList ps st).nextId = st.nextId + ps.length ∧
      (addUnattachedList ps st).aviationMapIds = st.aviationMapIds ∧
      (addUnattachedList ps st).baseMapIds = st.baseMapIds ∧
      (addUnattachedList ps st).databaseIds = st.databaseIds := by
  induction ps with
  | nil => intro st; simp [addUnattachedList, unattachedBuild]
  | cons p ps ih =>
    intro st
    have hstep : addUnattachedList (p :: ps) st =
        addUnattachedList ps
          { st with geoMaps := st.geoMaps ++ [mkUnattached st.nextId p],
                    nextId := st.nextId + 1 } := by
      unfold addUnattachedList
      simp [List.foldl_cons]
    rw [hstep]
    rcases ih { st with geoMaps := st.geoMaps ++ [mkUnattached st.nextId p],
                        nextId := st.nextId + 1 } with ⟨h1, h2, h3, h4, h5⟩
    refine ⟨?_, ?_, h3, h4, h5⟩
    · rw [h1]
      simp [unattachedBuild, List.append_assoc]
    · rw [h2]
      simp [List.length_cons]
      omega

theorem unattachedBuild_mem (ps : List String) :
    ∀ n : Nat, ∀ d ∈ unattachedBuild n ps,
      ∃ k, ∃ p ∈ ps, n ≤ k ∧ k < n + ps.length ∧ d = mkUnattached k p := by
  induction ps with
  | nil => intro n d hd; cases hd
  | cons p ps ih =>
    intro n d hd
    rcases List.mem_cons.mp hd with h | h
    · exact ⟨n, p, List.mem_cons_self p ps, Nat.le_refl n,
        by simp only [List.length_cons]; omega, h⟩
    · rcases ih (n + 1) d h with ⟨k, q, hq, hk1, hk2, hdq⟩
      refine ⟨k, q, List.mem_cons_of_mem p hq, by omega, ?_, hdq⟩
      simp only [List.length_cons] at hk2 ⊢
      omega

theorem unattachedBuild_covers (ps : List String) :
    ∀ n : Nat, ∀ p ∈ ps, ∃ k, mkUnattached k p ∈ unattachedBuild n ps := by
  induction ps with
  | nil => intro n p hp; cases hp
  | cons q qs ih =>
    intro n p hp
    rcases List.mem_cons.mp hp with h | h
    · subst h; exact ⟨n, List.mem_cons_self _ _⟩
    · rcases ih (n + 1) p h with ⟨k, hk⟩
      exact ⟨k, List.mem_cons_of_mem _ hk⟩

theorem unattachedBuild_names (ps : List String) :
    ∀ n : Nat, (unattachedBuild n ps).map (fun d => d.objectName) =
      ps.map unattachedObjectName := by
  induction ps with
  | nil => intro n; rfl
  | cons p ps ih => intro n; simp [unattachedBuild, mkUnattached, ih]

theorem mem_unattachedFilesOf {disk : List String} {g : List Downloadable} {p : String} :
    p ∈ unattachedFilesOf disk g ↔ p ∈ disk ∧ ∀ d ∈ g, d.fileName ≠ p := by
  unfold unattachedFilesOf
  rw [List.mem_filter]
  constructor
  · rintro ⟨hp, hall⟩
    refine ⟨hp, fun d hd => ?_⟩
    have := List.all_eq_true.mp hall d (mem_downloadables.mpr hd)
    exact bne_iff_ne.mp this
  · rintro ⟨hp, hall⟩
    refine ⟨hp, List.all_eq_true.mpr fun d hd => ?_⟩
    exact bne_iff_ne.mpr (hall d (mem_downloadables.mp hd))

theorem entryFold_pred (baseURL : String) (es : List MapEntry)
    (Q : Downloadable → Prop)
    (hupd : ∀ (d : Downloadable) (t : String) (z : Int),
      Q d → Q { d with remoteFileDate := t, remoteFileSize := z })
    (hnew : ∀ d : Downloadable, d.url.isSome = true → Q d) :
    ∀ (st : RecoState) (old : List Downloadable),
      (∀ d ∈ st.geoMaps, Q d) →
      ∀ d ∈ (es.foldl (processEntry baseURL) (st, old)).1.geoMaps, Q d := by
  induction es with
  | nil =>
    intro st old h
    simpa using h
  | cons e es ih =>
    intro st old h
    rw [List.foldl_cons]
    cases hfind : old.find? (fun d => d.objectName == entryObjectName e.path) with
    | none =>
      apply ih
      intro d hd
      simp only [processEntry, hfind] at hd
      rcases List.mem_append.mp hd with hd | hd
      · exact h d hd
      · rcases List.mem_singleton.mp hd with rfl
        exact hnew _ rfl
    | some d0 =>
      apply ih
      intro d hd
      simp only [processEntry, hfind] at hd
      rcases List.mem_map.mp hd with ⟨g, hg, rfl⟩
      by_cases hid : g.id == d0.id
      · simp only [hid, if_true]
        exact hupd g e.time e.size (h g hg)
      · simp only [hid, if_false]
        exact h g hg

/-- Claim C4: after any reconciliation pass and after any cleanup pass, no
Resource in the umbrella group has both an invalid remote URL and no local
file.  The cleanup pass (`localFileOfGeoMapChanged`) establishes the orphan
invariant unconditionally; the reconciliation pass
(`readGeoMapListFromJSONFile`) preserves it. -/
theorem orphan_free_after_passes (disk : List String) (st : RecoState)
    (doc : Option JsonTop) (hf : Bool) :
    orphanFree disk (localFileOfGeoMapChanged disk st).geoMaps ∧
    (orphanFree disk st.geoMaps →
      orphanFree disk (readGeoMapListFromJSONFile disk hf doc st).geoMaps) := by
  constructor
  · intro d hd hurl
    by_contra hfile
    have hdold : d ∈ downloadables st.geoMaps :=
      mem_downloadables.mpr ((condRemove_sublist _ _ st).subset hd)
    have hkeep : (d.url.isSome || hasFile disk d) = false := by
      have h1 : d.url.isSome = false := by rw [hurl]; rfl
      have h2 : hasFile disk d = false := by
        cases hhf : hasFile disk d
        · rfl
        · exact absurd ((hasFile_iff disk d).mp hhf) hfile
      rw [h1, h2]
      rfl
    exact condRemove_removes _ _ d hkeep st hdold d hd rfl
  · intro horph
    cases hf with
    | false => simpa [readGeoMapListFromJSONFile] using horph
    | true =>
      cases doc with
      | none => simpa [readGeoMapListFromJSONFile] using horph
      | some top =>
        have hred : readGeoMapListFromJSONFile disk true (some top) st =
            addUnattached disk (manifestPhase disk top st) := rfl
        rw [hred]
        have hfold : ∀ d ∈ (top.maps.foldl (processEntry top.url)
            (st, downloadables st.geoMaps)).1.geoMaps,
            d.url = none → d.fileName ∈ disk := by
          apply entryFold_pred top.url top.maps
            (fun d => d.url = none → d.fileName ∈ disk)
          · intro d t z hQ hnone
            exact hQ hnone
          · intro d hsome hnone
            rw [hnone] at hsome
            cases hsome
          · exact horph
        have hg2 : ∀ d ∈ (manifestPhase disk top st).geoMaps,
            d.url = none → d.fileName ∈ disk := by
          intro d hd
          exact hfold d ((condRemove_sublist _ _ _).subset hd)
        intro d hd hurl
        unfold addUnattached at hd
        rw [(addUnattachedList_fields _ _).1] at hd
        rcases List.mem_append.mp hd with hd | hd
        · exact hg2 d hd hurl
        · rcases unattachedBuild_mem _ _ d hd with ⟨k, p, hp, _, _, rfl⟩
          have : p ∈ disk := (mem_unattachedFilesOf.mp hp).1
          simpa [mkUnattached] using this

/-- Claim C4 witness: the two parts of `orphan_free_after_passes`
instantiated at a state holding one installed unsupported map. -/
theorem orphan_free_after_passes_witness :
    orphanFree ["/data/aviation_maps/a.txt"]
      (localFileOfGeoMapChanged ["/data/aviation_maps/a.txt"]
        ⟨[⟨0, none, "/data/aviation_maps/a.txt", "a", "s", "", -1⟩], [], [], [], 1⟩).geoMaps ∧
    orphanFree ["/data/aviation_maps/a.txt"]
      (readGeoMapListFromJSONFile ["/data/aviation_maps/a.txt"] true
        (some ⟨"http://server", []⟩)
        ⟨[⟨0, none, "/data/aviation_maps/a.txt", "a", "s", "", -1⟩], [], [], [], 1⟩).geoMaps :=
  ⟨(orphan_free_after_passes ["/data/aviation_maps/a.txt"]
      ⟨[⟨0, none, "/data/aviation_maps/a.txt", "a", "s", "", -1⟩], [], [], [], 1⟩
      (some ⟨"http://server", []⟩) true).1,
   (orphan_free_after_passes ["/data/aviation_maps/a.txt"]
      ⟨[⟨0, none, "/data/aviation_maps/a.txt", "a", "s", "", -1⟩], [], [], [], 1⟩
      (some ⟨"http://server", []⟩) true).2 (by decide)⟩

/-- Claim C10: whenever the manifest file content changes after a successful
download — also when the new content is not valid JSON (`doc = none`) — the
persisted time of last update is set to now and the auto-update timer is
restarted at the 24 hour interval. -/
theorem content_change_sets_timestamp_and_long_interval (s : ManagerState)
    (disk : List String) (doc : Option JsonTop) (now : Int) :
    (onMapsJsonFileContentChanged disk doc now s).1.mapListTimeStamp = some now ∧
    (onMapsJsonFileContentChanged disk doc now s).1.timerIntervalH = 24 ∧
    (onMapsJsonFileContentChanged disk doc now s).1.timerActive = true :=
  ⟨rfl, rfl, rfl⟩

/-- Claim C7: on each firing of the auto-update check, the timer is re-armed
in every case; it is re-armed to 1 hour with a manifest update triggered
exactly when no valid time of last update is recorded or that time lies more
than 6 days in the past, and to 24 hours otherwise. -/
theorem auto_update_check_behavior (v : Bool) (d : Int) :
    autoUpdateGeoMapList v d =
      (if v = false ∨ 6 < d then
        { timerIntervalH := 1, timerStarted := true, downloadStarted := true }
      else
        { timerIntervalH := 24, timerStarted := true, downloadStarted := false }) ∧
    (autoUpdateGeoMapList v d).timerStarted = true := by
  have h : autoUpdateGeoMapList v d =
      (if v = false ∨ 6 < d then
        { timerIntervalH := 1, timerStarted := true, downloadStarted := true }
      else
        { timerIntervalH := 24, timerStarted := true, downloadStarted := false }) := by
    unfold autoUpdateGeoMapList qAbs boolToInt
    cases v with
    | false => simp
    | true =>
      by_cases hd : 6 < d
      · simp [hd]
      · simp [hd]
  refine ⟨h, ?_⟩
  rw [h]
  by_cases hc : v = false ∨ 6 < d
  · rw [if_pos hc]
  · rw [if_neg hc]

/-- Claim C3 (amended): when the downloaded manifest content fails to parse,
the reconciliation pass leaves the whole group state unchanged and — unlike a
fetch failure, which surfaces the message through `errorReceiver` — emits no
error event. -/
theorem parse_failure_silent_no_mutation (s : ManagerState) (disk : List String)
    (now : Int) (m : String) :
    (onMapsJsonFileContentChanged disk none now s).1.reco = s.reco ∧
    (onMapsJsonFileContentChanged disk none now s).2 = [] ∧
    (onMapsJsonError m s).2 = [m] :=
  ⟨rfl, rfl, rfl⟩

/-- Claim C3 counterexample: at a concrete state, handling a manifest whose
content does not parse emits no error event at all, while a fetch failure
emits one; the claim that a parse failure surfaces an error event like a
fetch failure is false. -/
theorem parse_failure_no_error_event_cex :
    (onMapsJsonFileContentChanged ["/data/aviation_maps/x.txt"] none 7
      ⟨⟨[], [], [], [], 0⟩, none, 0, false⟩).2 = [] ∧
    (onMapsJsonError "network error" ⟨⟨[], [], [], [], 0⟩, none, 0, false⟩).2 =
      ["network error"] :=
  ⟨rfl, rfl⟩

/-- Claim C2: at the failing input — one Resource with a local file and a
valid remote URL whose name no longer occurs in the manifest — the
reconciliation pass keeps the Resource entirely unchanged: its remote URL is
still the old valid URL, not cleared to invalid as the code's own comment and
the spec demand. -/
theorem leftover_with_file_keeps_url :
    (readGeoMapListFromJSONFile ["/data/aviation_maps/x/X.geojson"] true
        (some ⟨"http://server", []⟩)
        ⟨[⟨0, some "http://server/x/X.geojson", "/data/aviation_maps/x/X.geojson",
           "X", "x", "20230101", 5⟩], [0], [], [], 1⟩).geoMaps =
      [⟨0, some "http://server/x/X.geojson", "/data/aviation_maps/x/X.geojson",
        "X", "x", "20230101", 5⟩] := by
  decide

/-- Claim C9 counterexample: after reconciling with an unattached file
`orphan.mbtiles` in the cache root, the umbrella group consists of one new
local-only Resource — but its category is the string "Unsupported Maps", not
"Unsupported" as the claim states. -/
theorem unattached_category_cex :
    ((readGeoMapListFromJSONFile ["/data/aviation_maps/orphan.mbtiles"] true
        (some ⟨"http://server", []⟩) ⟨[], [], [], [], 0⟩).geoMaps.map
      (fun d => (d.objectName, d.sectionName, d.url,
        hasFile ["/data/aviation_maps/orphan.mbtiles"] d))) =
      [("orphan", "Unsupported Maps", none, true)] ∧
    "Unsupported Maps" ≠ "Unsupported" := by
  decide

/-- Claim C9 (amended): if the cache root contains a file that is not
referenced as the local file of any Resource surviving the manifest phase,
then after the reconciliation pass the umbrella group contains a local-only
Resource for it: name derived from the relative path (the file stem for a
file directly in the cache root), category "Unsupported Maps", a local file,
and an invalid remote URL. -/
theorem unattached_resource_created (disk : List String) (top : JsonTop)
    (st : RecoState) (p : String) (hp : p ∈ disk)
    (hun : ∀ d ∈ (manifestPhase disk top st).geoMaps, d.fileName ≠ p) :
    ∃ d ∈ (readGeoMapListFromJSONFile disk true (some top) st).geoMaps,
      d.fileName = p ∧ d.url = none ∧ d.sectionName = "Unsupported Maps" ∧
      d.objectName = unattachedObjectName p ∧ hasFile disk d = true := by
  have hpmem : p ∈ unattachedFilesOf disk (manifestPhase disk top st).geoMaps :=
    mem_unattachedFilesOf.mpr ⟨hp, hun⟩
  obtain ⟨k, hk⟩ :=
    unattachedBuild_covers _ (manifestPhase disk top st).nextId p hpmem
  refine ⟨mkUnattached k p, ?_, rfl, rfl, rfl, rfl, ?_⟩
  · have hred : readGeoMapListFromJSONFile disk true (some top) st =
        addUnattachedList
          (unattachedFilesOf disk (manifestPhase disk top st).geoMaps)
          (manifestPhase disk top st) := rfl
    rw [hred, (addUnattachedList_fields _ _).1]
    exact List.mem_append_right _ hk
  · rw [hasFile_iff]
    exact hp

/-- Claim C9 witness: `unattached_resource_created` instantiated at the
scenario of the claim — an unreferenced `orphan.mbtiles` in the cache root
and an empty group. -/
theorem unattached_resource_created_witness :
    ∃ d ∈ (readGeoMapListFromJSONFile ["/data/aviation_maps/orphan.mbtiles"] true
        (some ⟨"http://server", []⟩) ⟨[], [], [], [], 0⟩).geoMaps,
      d.fileName = "/data/aviation_maps/orphan.mbtiles" ∧ d.url = none ∧
      d.sectionName = "Unsupported Maps" ∧
      d.objectName = unattachedObjectName "/data/aviation_maps/orphan.mbtiles" ∧
      hasFile ["/data/aviation_maps/orphan.mbtiles"] d = true :=
  unattached_resource_created ["/data/aviation_maps/orphan.mbtiles"]
    ⟨"http://server", []⟩ ⟨[], [], [], [], 0⟩ "/data/aviation_maps/orphan.mbtiles"
    (by decide) (by decide)

/-- Claim C1 counterexample: a manifest holding two entries whose paths have
the same file stem under different parent directories (`europe/lakes.geojson`
and `africa/lakes.geojson`) produces two Resources that both carry the name
"lakes" in the umbrella group, so the group does contain duplicate names. -/
theorem duplicate_stem_cex :
    ((readGeoMapListFromJSONFile [] true
        (some ⟨"http://base", [⟨"europe/lakes.geojson", 1000, "20230101"⟩,
                               ⟨"africa/lakes.geojson", 2000, "20230102"⟩]⟩)
        ⟨[], [], [], [], 0⟩).geoMaps.map (fun d => d.objectName)) =
      ["lakes", "lakes"] ∧
    ¬ ((readGeoMapListFromJSONFile [] true
        (some ⟨"http://base", [⟨"europe/lakes.geojson", 1000, "20230101"⟩,
                               ⟨"africa/lakes.geojson", 2000, "20230102"⟩]⟩)
        ⟨[], [], [], [], 0⟩).geoMaps.map (fun d => d.objectName)).Nodup := by
  decide

/-- Claim C5 counterexample: reconciling the same manifest twice from the
same state is not mutation-free on the second pass.  The manifest lists
`x/orphan.geojson` and the cache root holds an unattached `orphan.mbtiles`;
the first pass creates the manifest Resource (id 0) and the unattached
Resource (id 1), both named "orphan".  On the second pass the manifest entry
matches the unattached Resource first, so the Resource created by the first
pass is a leftover without a file and gets deleted. -/
theorem second_pass_deletes_cex :
    ((readGeoMapListFromJSONFile ["/data/aviation_maps/orphan.mbtiles"] true
        (some ⟨"http://base", [⟨"x/orphan.geojson", 10, "20230101"⟩]⟩)
        ⟨[], [], [], [], 0⟩).geoMaps.map (fun d => d.id)) = [0, 1] ∧
    ((readGeoMapListFromJSONFile ["/data/aviation_maps/orphan.mbtiles"] true
        (some ⟨"http://base", [⟨"x/orphan.geojson", 10, "20230101"⟩]⟩)
        (readGeoMapListFromJSONFile ["/data/aviation_maps/orphan.mbtiles"] true
          (some ⟨"http://base", [⟨"x/orphan.geojson", 10, "20230101"⟩]⟩)
          ⟨[], [], [], [], 0⟩)).geoMaps.map (fun d => d.id)) = [1] := by
  decide

theorem checkAndEmit_fresh (ms : List AggMember) (c : AggCache) :
    ∀ sig ∈ (checkAndEmitSignals ms c).2, signalFresh ms c sig := by
  intro sig hsig
  simp only [checkAndEmitSignals, List.mem_append] at hsig
  rcases hsig with ((((h | h) | h) | h) | h) <;>
    [skip; skip; skip; skip; skip] <;>
    · revert h
      split
      · intro h
        rcases List.mem_singleton.mp h with rfl
        rename_i hc
        exact ⟨rfl, bne_iff_ne.mp hc⟩
      · intro h
        cases h

/-- Claim C6: across arbitrary interleavings of membership additions,
removals and member transfer-state changes, the group aggregator never emits
a change notification for any of the five derived properties when the freshly
recomputed value equals the previously cached value: every emitted signal
carries the recomputed value and that value differs from the cache it was
compared against. -/
theorem aggregator_change_suppression (ops : List GroupOp) :
    ∀ (ms : List AggMember) (c : AggCache),
      ∀ step ∈ runWatcher ms c ops, ∀ sig ∈ step.2.2,
        signalFresh step.1 step.2.1 sig := by
  induction ops with
  | nil =>
    intro ms c step hstep
    cases hstep
  | cons op ops ih =>
    intro ms c step hstep sig hsig
    simp only [runWatcher] at hstep
    rcases List.mem_cons.mp hstep with h | h
    · subst h
      exact checkAndEmit_fresh _ _ sig hsig
    · exact ih (applyOp ms op) (checkAndEmitSignals (applyOp ms op) c).1 step h sig hsig

/-- Claim C6 witness: `aggregator_change_suppression` applied to the trace
that adds one downloading member to an empty group, which emits exactly one
`downloadingChanged true` signal. -/
theorem aggregator_change_suppression_witness :
    signalFresh [⟨TransferState.downloading, false, "p", false, 0⟩]
      ⟨false, false, false, [], ""⟩ (AggSignal.downloadingChanged true) :=
  aggregator_change_suppression
    [GroupOp.addMember ⟨TransferState.downloading, false, "p", false, 0⟩]
    [] ⟨false, false, false, [], ""⟩
    ([⟨TransferState.downloading, false, "p", false, 0⟩],
      ⟨false, false, false, [], ""⟩, [AggSignal.downloadingChanged true])
    (by decide) (AggSignal.downloadingChanged true) (by decide)

/-- Claim C8 counterexample: with the terms initially accepted and a
downloaded maps.json present, deferred initialization starts no download;
revoking the acceptance afterwards fires `acceptedTermsChanged`, whose
handler `updateGeoMapList` starts a manifest download unconditionally — the
log records a download started while the gate is false. -/
theorem gate_violation_cex :
    (runSched ⟨true, false, false, true, true, 0⟩
      [SchedEv.deferredInit, SchedEv.setAcceptedTerms false]).2 = [false] := by
  decide

/-- Claim C8 (amended): at startup, while the "network use accepted" gate is
false, `deferredInitialization` starts no manifest download; the gate is
however not consulted by the settings-change handler or by later timer
firings. -/
theorem gate_respected_at_startup (s : SchedState) (h : s.accepted = false) :
    (schedStep s SchedEv.deferredInit).2 = [] := by
  simp [schedStep, h]

/-- Claim C8 witness: `gate_respected_at_startup` at a concrete state with
the gate off. -/
theorem gate_respected_at_startup_witness :
    (schedStep ⟨false, false, false, false, true, 0⟩ SchedEv.deferredInit).2 = [] :=
  gate_respected_at_startup ⟨false, false, false, false, true, 0⟩ rfl

theorem mapCongrMem {α β : Type _} {f g : α → β} :
    ∀ {l : List α}, (∀ x ∈ l, f x = g x) → l.map f = l.map g := by
  intro l
  induction l with
  | nil => intro _; rfl
  | cons a as ih =>
    intro h
    simp only [List.map_cons]
    rw [h a (List.mem_cons_self a as), ih (fun x hx => h x (List.mem_cons_of_mem a hx))]

theorem processEntry_found (baseURL : String) (e : MapEntry) (st : RecoState)
    (old : List Downloadable) (d0 : Downloadable)
    (hfind : old.find? (fun d => d.objectName == entryObjectName e.path) = some d0) :
    processEntry baseURL (st, old) e =
      ({ st with geoMaps := st.geoMaps.map (fun g =>
          if g.id == d0.id then
            { g with remoteFileDate := e.time, remoteFileSize := e.size }
          else g) },
       old.filter (fun g => g.id != d0.id)) := by
  simp [processEntry, hfind]

theorem processEntry_new (baseURL : String) (e : MapEntry) (st : RecoState)
    (old : List Downloadable)
    (hfind : old.find? (fun d => d.objectName == entryObjectName e.path) = none) :
    processEntry baseURL (st, old) e =
      ({ st with
          geoMaps := st.geoMaps ++ [({
            id := st.nextId,
            url := some (baseURL ++ "/" ++ e.path),
            fileName := aviationMapsDir ++ e.path,
            objectName := entryObjectName e.path,
            sectionName := entrySectionName e.path,
            remoteFileDate := e.time, remoteFileSize := e.size } : Downloadable)],
          aviationMapIds :=
            if qtEndsWith (aviationMapsDir ++ e.path) "geojson" then
              st.aviationMapIds ++ [st.nextId]
            else st.aviationMapIds,
          baseMapIds :=
            if qtEndsWith (aviationMapsDir ++ e.path) "mbtiles" then
              st.baseMapIds ++ [st.nextId]
            else st.baseMapIds,
          databaseIds :=
            if qtEndsWith (aviationMapsDir ++ e.path) "txt" then
              st.databaseIds ++ [st.nextId]
            else st.databaseIds,
          nextId := st.nextId + 1 },
       old) := by
  simp [processEntry, hfind]

theorem map_map_congr {α β : Type _} (f : α → α) (g : α → β) (l : List α)
    (h : ∀ x ∈ l, g (f x) = g x) : (l.map f).map g = l.map g := by
  induction l with
  | nil => rfl
  | cons a as ih =>
    simp only [List.map_cons]
    rw [h a (List.mem_cons_self a as), ih (fun x hx => h x (List.mem_cons_of_mem a hx))]

theorem entryFold_main (baseURL : String) (es : List MapEntry) :
    ∀ (st : RecoState) (old : List Downloadable) (P : List MapEntry)
      (stF : RecoState) (oldF : List Downloadable),
      es.foldl (processEntry baseURL) (st, old) = (stF, oldF) →
      ((P ++ es).map entryName).Nodup →
      WFr st →
      (namesOf st.geoMaps).Nodup →
      (∀ d ∈ old, d ∈ st.geoMaps) →
      (namesOf old).Nodup →
      (∀ d ∈ old, d.objectName ∉ P.map entryName) →
      (∀ d ∈ st.geoMaps, d ∈ old ∨ d.objectName ∈ P.map entryName) →
      (∀ e ∈ P, ∃ d ∈ st.geoMaps, d.objectName = entryName e ∧
        d.remoteFileDate = e.time ∧ d.remoteFileSize = e.size ∧ d ∉ old) →
      WFr stF ∧
      (namesOf stF.geoMaps).Nodup ∧
      (∀ d ∈ oldF, d ∈ stF.geoMaps) ∧
      (namesOf oldF).Nodup ∧
      (∀ d ∈ oldF, d.objectName ∉ (P ++ es).map entryName) ∧
      (∀ e ∈ P ++ es, ∃ d ∈ stF.geoMaps, d.objectName = entryName e ∧
        d.remoteFileDate = e.time ∧ d.remoteFileSize = e.size ∧ d ∉ oldF) ∧
      (∀ d ∈ stF.geoMaps, d ∈ oldF ∨ d.objectName ∈ (P ++ es).map entryName) := by
  induction es with
  | nil =>
    intro st old P stF oldF heq h1 h2 h3 h4 h5 h6 h7 h8
    simp only [List.foldl_nil] at heq
    injection heq with heqs heqo
    subst heqs
    subst heqo
    simp only [List.append_nil]
    exact ⟨h2, h3, h4, h5, h6, h8, h7⟩
  | cons e es ih =>
    intro st old P stF oldF heq h1 h2 h3 h4 h5 h6 h7 h8
    rw [List.foldl_cons] at heq
    have hPe : entryName e ∉ P.map entryName := by
      have h1' := h1
      rw [List.map_append] at h1'
      have hdisj := List.disjoint_of_nodup_append h1'
      intro hmem
      exact hdisj hmem (by simp)
    cases hfind : old.find? (fun d => d.objectName == entryObjectName e.path) with
    | some d0 =>
      rw [processEntry_found baseURL e st old d0 hfind] at heq
      set updf : Downloadable → Downloadable := (fun g =>
        if g.id == d0.id then
          { g with remoteFileDate := e.time, remoteFileSize := e.size }
        else g) with hupdf
      have hd0old : d0 ∈ old := List.mem_of_find?_eq_some hfind
      have hd0gm : d0 ∈ st.geoMaps := h4 d0 hd0old
      have hd0name : d0.objectName = entryName e := by
        have h := List.find?_some hfind
        simpa using h
      have hidInj : ∀ a ∈ st.geoMaps, ∀ b ∈ st.geoMaps, a.id = b.id → a = b :=
        fun a ha b hb hab => List.inj_on_of_nodup_map h2.2 ha hb hab
      have hnameInjOld : ∀ a ∈ old, ∀ b ∈ old, a.objectName = b.objectName → a = b :=
        fun a ha b hb hab => List.inj_on_of_nodup_map h5 ha hb hab
      have hupd_id : ∀ g : Downloadable, (updf g).id = g.id := by
        intro g
        simp only [hupdf]
        by_cases h : (g.id == d0.id) = true <;> simp [h]
      have hupd_name : ∀ g : Downloadable, (updf g).objectName = g.objectName := by
        intro g
        simp only [hupdf]
        by_cases h : (g.id == d0.id) = true <;> simp [h]
      have hupd_eq : ∀ g : Downloadable, g.id ≠ d0.id → updf g = g := by
        intro g hg
        simp only [hupdf]
        rw [if_neg (by simpa using hg)]
      have hupd_d0 : updf d0 =
          { d0 with remoteFileDate := e.time, remoteFileSize := e.size } := by
        simp [hupdf]
      have hids2 : (st.geoMaps.map updf).map (fun d => d.id) =
          st.geoMaps.map (fun d => d.id) :=
        map_map_congr updf (fun d => d.id) st.geoMaps (fun x _ => hupd_id x)
      have hnames2 : namesOf (st.geoMaps.map updf) = namesOf st.geoMaps :=
        map_map_congr updf (fun d => d.objectName) st.geoMaps (fun x _ => hupd_name x)
      have hmem_upd : ∀ g ∈ st.geoMaps, updf g ∈ st.geoMaps.map updf :=
        fun g hg => List.mem_map_of_mem updf hg
      have hmem_upd2 : ∀ g ∈ st.geoMaps, g.id ≠ d0.id → g ∈ st.geoMaps.map updf :=
        fun g hg hne => (hupd_eq g hne) ▸ hmem_upd g hg
      have hWF2 : WFr { st with geoMaps := st.geoMaps.map updf } := by
        refine ⟨?_, ?_⟩
        · intro d hd
          rcases List.mem_map.mp hd with ⟨g, hg, rfl⟩
          show (updf g).id < st.nextId
          rw [hupd_id g]
          exact h2.1 g hg
        · show ((st.geoMaps.map updf).map (fun d => d.id)).Nodup
          rw [hids2]
          exact h2.2
      have hN3 : (namesOf (st.geoMaps.map updf)).Nodup := by
        rw [hnames2]; exact h3
      have hO4 : ∀ d ∈ old.filter (fun g => g.id != d0.id),
          d ∈ st.geoMaps.map updf := by
        intro d hd
        obtain ⟨hdo, hdneq⟩ := List.mem_filter.mp hd
        exact hmem_upd2 d (h4 d hdo) (bne_iff_ne.mp hdneq)
      have hO5 : (namesOf (old.filter (fun g => g.id != d0.id))).Nodup :=
        List.Nodup.sublist ((List.filter_sublist old).map _) h5
      have hO6 : ∀ d ∈ old.filter (fun g => g.id != d0.id),
          d.objectName ∉ (P ++ [e]).map entryName := by
        intro d hd hmem
        obtain ⟨hdo, hdneq⟩ := List.mem_filter.mp hd
        rw [List.map_append] at hmem
        rcases List.mem_append.mp hmem with hm | hm
        · exact h6 d hdo hm
        · have hdn : d.objectName = entryName e := by simpa using hm
          have hdd0 : d = d0 := hnameInjOld d hdo d0 hd0old (hdn.trans hd0name.symm)
          exact (bne_iff_ne.mp hdneq) (by rw [hdd0])
      have hC7 : ∀ d ∈ st.geoMaps.map updf,
          d ∈ old.filter (fun g => g.id != d0.id) ∨
          d.objectName ∈ (P ++ [e]).map entryName := by
        intro d hd
        rcases List.mem_map.mp hd with ⟨g, hg, rfl⟩
        rcases h7 g hg with hgo | hgp
        · by_cases hgid : g.id = d0.id
          · right
            have hgd0 : g = d0 := hidInj g hg d0 hd0gm hgid
            subst hgd0
            rw [List.map_append]
            refine List.mem_append_right _ ?_
            simp [hupd_name g, hd0name]
          · left
            rw [hupd_eq g hgid]
            exact List.mem_filter.mpr ⟨hgo, bne_iff_ne.mpr hgid⟩
        · right
          rw [List.map_append]
          refine List.mem_append_left _ ?_
          rw [hupd_name g]
          exact hgp
      have hP8 : ∀ e' ∈ P ++ [e], ∃ d ∈ st.geoMaps.map updf,
          d.objectName = entryName e' ∧ d.remoteFileDate = e'.time ∧
          d.remoteFileSize = e'.size ∧
          d ∉ old.filter (fun g => g.id != d0.id) := by
        intro e' he'
        rcases List.mem_append.mp he' with hp | hself
        · rcases h8 e' hp with ⟨d, hdgm, hname, hdate, hsize, hnold⟩
          have hdneq : d.id ≠ d0.id := by
            intro hch
            have hdd0 : d = d0 := hidInj d hdgm d0 hd0gm hch
            rw [hdd0] at hnold
            exact hnold hd0old
          refine ⟨d, hmem_upd2 d hdgm hdneq, hname, hdate, hsize, ?_⟩
          intro hdf
          exact hnold (List.mem_filter.mp hdf).1
        · have he : e' = e := by simpa using hself
          subst he
          refine ⟨updf d0, hmem_upd d0 hd0gm, ?_, ?_, ?_, ?_⟩
          · rw [hupd_name d0, hd0name]
          · simp [hupd_d0]
          · simp [hupd_d0]
          · intro hmem
            have hb := (List.mem_filter.mp hmem).2
            exact (bne_iff_ne.mp hb) (hupd_id d0)
      have h1' : (((P ++ [e]) ++ es).map entryName).Nodup := by
        simpa [List.append_assoc] using h1
      have hmain := ih _ _ (P ++ [e]) stF oldF heq h1' hWF2 hN3 hO4 hO5 hO6 hC7 hP8
      simpa [List.append_assoc] using hmain
    | none =>
      rw [processEntry_new baseURL e st old hfind] at heq
      have hno : ∀ x ∈ old, x.objectName ≠ entryName e := by
        intro x hx
        have := List.find?_eq_none.mp hfind x hx
        simpa using this
      set nd : Downloadable := {
        id := st.nextId,
        url := some (baseURL ++ "/" ++ e.path),
        fileName := aviationMapsDir ++ e.path,
        objectName := entryObjectName e.path,
        sectionName := entrySectionName e.path,
        remoteFileDate := e.time, remoteFileSize := e.size } with hnd
      have hndname : nd.objectName = entryName e := by rw [hnd]
      have hndid : nd.id = st.nextId := by rw [hnd]
      have hnotin : entryName e ∉ namesOf st.geoMaps := by
        intro hmem
        rcases List.mem_map.mp hmem with ⟨g, hg, hgname⟩
        rcases h7 g hg with hgo | hgp
        · exact hno g hgo hgname
        · rw [hgname] at hgp
          exact hPe hgp
      have hndnotold : nd ∉ old := by
        intro hmem
        have hlt := h2.1 nd (h4 nd hmem)
        rw [hndid] at hlt
        exact Nat.lt_irrefl _ hlt
      have hWF2 : WFr { st with
          geoMaps := st.geoMaps ++ [nd],
          aviationMapIds :=
            if qtEndsWith (aviationMapsDir ++ e.path) "geojson" then
              st.aviationMapIds ++ [st.nextId]
            else st.aviationMapIds,
          baseMapIds :=
            if qtEndsWith (aviationMapsDir ++ e.path) "mbtiles" then
              st.baseMapIds ++ [st.nextId]
            else st.baseMapIds,
          databaseIds :=
            if qtEndsWith (aviationMapsDir ++ e.path) "txt" then
              st.databaseIds ++ [st.nextId]
            else st.databaseIds,
          nextId := st.nextId + 1 } := by
        refine ⟨?_, ?_⟩
        · intro d hd
          show d.id < st.nextId + 1
          rcases List.mem_append.mp hd with hd | hd
          · exact Nat.lt_succ_of_lt (h2.1 d hd)
          · rcases List.mem_singleton.mp hd with rfl
            rw [hndid]
            exact Nat.lt_succ_self _
        · show ((st.geoMaps ++ [nd]).map (fun d => d.id)).Nodup
          rw [List.map_append]
          refine List.Nodup.append h2.2 (by simp) ?_
          intro a ha hb
          rcases List.mem_map.mp ha with ⟨g, hg, rfl⟩
          have hb' : g.id = nd.id := by simpa using hb
          have hlt := h2.1 g hg
          rw [hb', hndid] at hlt
          exact Nat.lt_irrefl _ hlt
      have hN3 : (namesOf (st.geoMaps ++ [nd])).Nodup := by
        show ((st.geoMaps ++ [nd]).map (fun d => d.objectName)).Nodup
        rw [List.map_append]
        refine List.Nodup.append h3 (by simp) ?_
        intro a ha hb
        have hb' : a = nd.objectName := by simpa using hb
        rw [hb', hndname] at ha
        exact hnotin ha
      have hO4 : ∀ d ∈ old, d ∈ st.geoMaps ++ [nd] :=
        fun d hd => List.mem_append_left _ (h4 d hd)
      have hO6 : ∀ d ∈ old, d.objectName ∉ (P ++ [e]).map entryName := by
        intro d hd hmem
        rw [List.map_append] at hmem
        rcases List.mem_append.mp hmem with hm | hm
        · exact h6 d hd hm
        · exact hno d hd (by simpa using hm)
      have hC7 : ∀ d ∈ st.geoMaps ++ [nd],
          d ∈ old ∨ d.objectName ∈ (P ++ [e]).map entryName := by
        intro d hd
        rcases List.mem_append.mp hd with hd | hd
        · rcases h7 d hd with h | h
          · exact Or.inl h
          · right
            rw [List.map_append]
            exact List.mem_append_left _ h
        · rcases List.mem_singleton.mp hd with rfl
          right
          rw [List.map_append]
          refine List.mem_append_right _ ?_
          simp [hndname]
      have hP8 : ∀ e' ∈ P ++ [e], ∃ d ∈ st.geoMaps ++ [nd],
          d.objectName = entryName e' ∧ d.remoteFileDate = e'.time ∧
          d.remoteFileSize = e'.size ∧ d ∉ old := by
        intro e' he'
        rcases List.mem_append.mp he' with hp | hself
        · rcases h8 e' hp with ⟨d, hdgm, hname, hdate, hsize, hnold⟩
          exact ⟨d, List.mem_append_left _ hdgm, hname, hdate, hsize, hnold⟩
        · have he : e' = e := by simpa using hself
          subst he
          refine ⟨nd, List.mem_append_right _ (List.mem_singleton_self _),
            hndname, ?_, ?_, hndnotold⟩
          · rw [hnd]
          · rw [hnd]
      have h1' : (((P ++ [e]) ++ es).map entryName).Nodup := by
        simpa [List.append_assoc] using h1
      have hmain := ih _ _ (P ++ [e]) stF oldF heq h1' hWF2 hN3 hO4 h5 hO6 hC7 hP8
      simpa [List.append_assoc] using hmain

theorem map_id_mem {α : Type _} {f : α → α} :
    ∀ {l : List α}, (∀ x ∈ l, f x = x) → l.map f = l := by
  intro l
  induction l with
  | nil => intro _; rfl
  | cons a as ih =>
    intro h
    simp only [List.map_cons]
    rw [h a (List.mem_cons_self a as), ih (fun x hx => h x (List.mem_cons_of_mem a hx))]

theorem unattachedBuild_ids_nodup (ps : List String) :
    ∀ n : Nat, ((unattachedBuild n ps).map (fun d => d.id)).Nodup := by
  induction ps with
  | nil => intro n; simp [unattachedBuild]
  | cons p ps ih =>
    intro n
    simp only [unattachedBuild, List.map_cons]
    refine List.nodup_cons.mpr ⟨?_, ih (n + 1)⟩
    intro hmem
    rcases List.mem_map.mp hmem with ⟨d, hd, hdid⟩
    rcases unattachedBuild_mem ps (n + 1) d hd with ⟨k, q, _, hk1, _, rfl⟩
    have : (mkUnattached n p).id = n := rfl
    rw [this] at hdid
    have : (mkUnattached k q).id = k := rfl
    rw [this] at hdid
    omega

theorem entryFold_id (baseURL : String) (es : List MapEntry) :
    ∀ (st : RecoState) (old : List Downloadable),
      WFr st →
      (namesOf old).Nodup →
      (∀ d ∈ old, d ∈ st.geoMaps) →
      (es.map entryName).Nodup →
      (∀ e ∈ es, ∃ d ∈ old, d.objectName = entryName e ∧
        d.remoteFileDate = e.time ∧ d.remoteFileSize = e.size) →
      (es.foldl (processEntry baseURL) (st, old)).1 = st ∧
      (∀ d ∈ (es.foldl (processEntry baseURL) (st, old)).2, d ∈ old) := by
  induction es with
  | nil =>
    intro st old _ _ _ _ _
    exact ⟨rfl, fun d hd => hd⟩
  | cons e es ih =>
    intro st old hW hON hOS hEN hwit
    obtain ⟨d, hdold, hdname, hddate, hdsize⟩ := hwit e (List.mem_cons_self e es)
    cases hfind : old.find? (fun g => g.objectName == entryObjectName e.path) with
    | none =>
      exfalso
      have := List.find?_eq_none.mp hfind d hdold
      simp only [beq_iff_eq] at this
      exact this hdname
    | some d0 =>
      have hd0old : d0 ∈ old := List.mem_of_find?_eq_some hfind
      have hd0name : d0.objectName = entryName e := by
        have h := List.find?_some hfind
        simpa using h
      have hnameInjOld : ∀ a ∈ old, ∀ b ∈ old, a.objectName = b.objectName → a = b :=
        fun a ha b hb hab => List.inj_on_of_nodup_map hON ha hb hab
      have hidInj : ∀ a ∈ st.geoMaps, ∀ b ∈ st.geoMaps, a.id = b.id → a = b :=
        fun a ha b hb hab => List.inj_on_of_nodup_map hW.2 ha hb hab
      have hd0d : d0 = d := hnameInjOld d0 hd0old d hdold (hd0name.trans hdname.symm)
      subst hd0d
      rw [List.foldl_cons, processEntry_found baseURL e st old d0 hfind]
      have hmap : st.geoMaps.map (fun g =>
          if g.id == d0.id then
            { g with remoteFileDate := e.time, remoteFileSize := e.size }
          else g) = st.geoMaps := by
        apply map_id_mem
        intro g hg
        by_cases hgid : (g.id == d0.id) = true
        · have hgd0 : g = d0 := hidInj g hg d0 (hOS d0 hd0old) (beq_iff_eq.mp hgid)
          subst hgd0
          rw [if_pos hgid, ← hddate, ← hdsize]
        · rw [if_neg hgid]
      have hstEq : ({ st with geoMaps := st.geoMaps.map (fun g =>
          if g.id == d0.id then
            { g with remoteFileDate := e.time, remoteFileSize := e.size }
          else g) } : RecoState) = st := by
        rw [hmap]
      rw [hstEq]
      have hres := ih st (old.filter (fun g => g.id != d0.id)) hW
        (List.Nodup.sublist ((List.filter_sublist old).map _) hON)
        (fun d2 hd2 => hOS d2 (List.mem_filter.mp hd2).1)
        (List.nodup_cons.mp hEN).2
        ?_
      · refine ⟨hres.1, fun d2 hd2 => (List.mem_filter.mp (hres.2 d2 hd2)).1⟩
      · intro e' he'
        obtain ⟨d', hd'old, hd'name, hd'date, hd'size⟩ :=
          hwit e' (List.mem_cons_of_mem e he')
        refine ⟨d', List.mem_filter.mpr ⟨hd'old, ?_⟩, hd'name, hd'date, hd'size⟩
        refine bne_iff_ne.mpr ?_
        intro hch
        have hd'd0 : d' = d0 := hidInj d' (hOS d' hd'old) d0 (hOS d0 hd0old) hch
        have : entryName e' = entryName e := by
          rw [← hd'name, hd'd0, hd0name]
        have hnotin : entryName e ∉ es.map entryName := (List.nodup_cons.mp hEN).1
        exact hnotin (this ▸ List.mem_map_of_mem entryName he')

theorem reconcile_master (disk : List String) (top : JsonTop) (st0 : RecoState)
    (hE : (top.maps.map entryName).Nodup)
    (hW : WFr st0)
    (hN : (namesOf st0.geoMaps).Nodup)
    (hU1 : ((unattachedFilesOf disk (manifestPhase disk top st0).geoMaps).map
      unattachedObjectName).Nodup)
    (hU2 : ∀ n ∈ (unattachedFilesOf disk (manifestPhase disk top st0).geoMaps).map
      unattachedObjectName, n ∉ namesOf (manifestPhase disk top st0).geoMaps) :
    WFr (readGeoMapListFromJSONFile disk true (some top) st0) ∧
    (namesOf (readGeoMapListFromJSONFile disk true (some top) st0).geoMaps).Nodup ∧
    (∀ e ∈ top.maps, ∃ d ∈ (readGeoMapListFromJSONFile disk true (some top) st0).geoMaps,
      d.objectName = entryName e ∧ d.remoteFileDate = e.time ∧
      d.remoteFileSize = e.size) ∧
    (∀ d ∈ (readGeoMapListFromJSONFile disk true (some top) st0).geoMaps,
      d.objectName ∈ top.maps.map entryName ∨ hasFile disk d = true) ∧
    (∀ p ∈ disk, ∃ d ∈ (readGeoMapListFromJSONFile disk true (some top) st0).geoMaps,
      d.fileName = p) := by
  rcases hr : top.maps.foldl (processEntry top.url) (st0, downloadables st0.geoMaps)
    with ⟨stF, oldF⟩
  have hphase : manifestPhase disk top st0 = deleteLeftovers disk stF oldF := by
    simp only [manifestPhase]
    rw [hr]
  have hread : readGeoMapListFromJSONFile disk true (some top) st0 =
      addUnattachedList (unattachedFilesOf disk (deleteLeftovers disk stF oldF).geoMaps)
        (deleteLeftovers disk stF oldF) := by
    show addUnattached disk (manifestPhase disk top st0) = _
    rw [hphase]
    rfl
  rw [hphase] at hU1 hU2
  have hKs := entryFold_main top.url top.maps st0 (downloadables st0.geoMaps) [] stF oldF
    hr (by simpa using hE) hW hN
    (fun d hd => mem_downloadables.mp hd)
    (((sortLe_perm dlLe st0.geoMaps).map (fun d => d.objectName)).nodup_iff.mpr hN)
    (by simp)
    (fun d hd => Or.inl (mem_downloadables.mpr hd))
    (by simp)
  simp only [List.nil_append] at hKs
  obtain ⟨hWF_F, hNames_F, hOldSub_F, _hOldN_F, _hOldNames_F, hEnt_F, hCov_F⟩ := hKs
  have hidInj_F : ∀ a ∈ stF.geoMaps, ∀ b ∈ stF.geoMaps, a.id = b.id → a = b :=
    fun a ha b hb hab => List.inj_on_of_nodup_map hWF_F.2 ha hb hab
  have hg2sub : (deleteLeftovers disk stF oldF).geoMaps.Sublist stF.geoMaps :=
    condRemove_sublist _ _ _
  have hWF_g2 : WFr (deleteLeftovers disk stF oldF) := by
    refine ⟨?_, List.Nodup.sublist (hg2sub.map _) hWF_F.2⟩
    intro d hd
    have hn : (deleteLeftovers disk stF oldF).nextId = stF.nextId :=
      condRemove_nextId _ _ _
    rw [hn]
    exact hWF_F.1 d (hg2sub.subset hd)
  have hNames_g2 : (namesOf (deleteLeftovers disk stF oldF).geoMaps).Nodup :=
    List.Nodup.sublist (hg2sub.map _) hNames_F
  have hEnt_g2 : ∀ e ∈ top.maps, ∃ d ∈ (deleteLeftovers disk stF oldF).geoMaps,
      d.objectName = entryName e ∧ d.remoteFileDate = e.time ∧
      d.remoteFileSize = e.size := by
    intro e he
    obtain ⟨d, hdF, hname, hdate, hsize, hnold⟩ := hEnt_F e he
    refine ⟨d, ?_, hname, hdate, hsize⟩
    refine condRemove_keeps _ _ d stF hdF ?_
    intro x hx _ hch
    have hxd : x = d := hidInj_F x (hOldSub_F x hx) d hdF hch
    rw [hxd] at hx
    exact hnold hx
  have hCov_g2 : ∀ d ∈ (deleteLeftovers disk stF oldF).geoMaps,
      d.objectName ∈ top.maps.map entryName ∨ hasFile disk d = true := by
    intro d hd
    rcases hCov_F d (hg2sub.subset hd) with hdo | hdn
    · right
      by_contra hhf
      have hkeep : hasFile disk d = false := by
        cases h : hasFile disk d
        · rfl
        · exact absurd h hhf
      exact condRemove_removes (fun x => hasFile disk x) oldF d hkeep stF hdo d hd rfl
    · left
      exact hdn
  rw [hread]
  obtain ⟨hgm, hni, _, _, _⟩ := addUnattachedList_fields
    (unattachedFilesOf disk (deleteLeftovers disk stF oldF).geoMaps)
    (deleteLeftovers disk stF oldF)
  refine ⟨?_, ?_, ?_, ?_, ?_⟩
  · -- well-formedness of the final state
    refine ⟨?_, ?_⟩
    · intro d hd
      rw [hgm] at hd
      rw [hni]
      rcases List.mem_append.mp hd with hd | hd
      · have := hWF_g2.1 d hd
        omega
      · rcases unattachedBuild_mem _ _ d hd with ⟨k, p, hp, hk1, hk2, rfl⟩
        have : (mkUnattached k p).id = k := rfl
        rw [this]
        omega
    · rw [hgm, List.map_append]
      refine List.Nodup.append hWF_g2.2 (unattachedBuild_ids_nodup _ _) ?_
      intro a ha hb
      rcases List.mem_map.mp ha with ⟨g, hg, rfl⟩
      rcases List.mem_map.mp hb with ⟨d, hd, hdid⟩
      rcases unattachedBuild_mem _ _ d hd with ⟨k, p, hp, hk1, _, rfl⟩
      have hgk : g.id < (deleteLeftovers disk stF oldF).nextId := hWF_g2.1 g hg
      have : (mkUnattached k p).id = k := rfl
      rw [this] at hdid
      omega
  · -- no duplicate names in the final group
    rw [hgm]
    show ((((deleteLeftovers disk stF oldF).geoMaps) ++ _).map
      (fun d => d.objectName)).Nodup
    rw [List.map_append, unattachedBuild_names]
    refine List.Nodup.append hNames_g2 hU1 ?_
    intro a ha hb
    exact hU2 a hb ha
  · -- one Resource per manifest entry, carrying the entry metadata
    intro e he
    obtain ⟨d, hd, hname, hdate, hsize⟩ := hEnt_g2 e he
    refine ⟨d, ?_, hname, hdate, hsize⟩
    rw [hgm]
    exact List.mem_append_left _ hd
  · -- every final Resource is manifest-named or has a local file
    intro d hd
    rw [hgm] at hd
    rcases List.mem_append.mp hd with hd | hd
    · exact hCov_g2 d hd
    · rcases unattachedBuild_mem _ _ d hd with ⟨k, p, hp, _, _, rfl⟩
      right
      have hpd : p ∈ disk := (mem_unattachedFilesOf.mp hp).1
      show hasFile disk (mkUnattached k p) = true
      rw [hasFile_iff]
      exact hpd
  · -- every file on disk is attached to some final Resource
    intro p hp
    by_cases hpf : p ∈ unattachedFilesOf disk (deleteLeftovers disk stF oldF).geoMaps
    · obtain ⟨k, hk⟩ := unattachedBuild_covers _
        (deleteLeftovers disk stF oldF).nextId p hpf
      refine ⟨mkUnattached k p, ?_, rfl⟩
      rw [hgm]
      exact List.mem_append_right _ hk
    · have : ¬ (p ∈ disk ∧ ∀ d ∈ (deleteLeftovers disk stF oldF).geoMaps,
          d.fileName ≠ p) := fun hc => hpf (mem_unattachedFilesOf.mpr hc)
      push_neg at this
      obtain ⟨d, hd, hdp⟩ := this hp
      refine ⟨d, ?_, hdp⟩
      rw [hgm]
      exact List.mem_append_left _ hd

/-- Claim C1 (amended): after reconciling a successfully parsed manifest, the
umbrella group contains a Resource for every manifest entry and no two
Resources share a name — provided the manifest entries' derived names are
pairwise distinct, the group had no duplicate names before the pass, and the
names derived for unattached files are pairwise distinct and distinct from
the names of the Resources surviving the manifest phase.  (Without these
provisos the property fails; see the counterexample.) -/
theorem reconcile_unique_names (disk : List String) (top : JsonTop)
    (st0 : RecoState)
    (hE : (top.maps.map entryName).Nodup)
    (hW : WFr st0)
    (hN : (namesOf st0.geoMaps).Nodup)
    (hU1 : ((unattachedFilesOf disk (manifestPhase disk top st0).geoMaps).map
      unattachedObjectName).Nodup)
    (hU2 : ∀ n ∈ (unattachedFilesOf disk (manifestPhase disk top st0).geoMaps).map
      unattachedObjectName, n ∉ namesOf (manifestPhase disk top st0).geoMaps) :
    (namesOf (readGeoMapListFromJSONFile disk true (some top) st0).geoMaps).Nodup ∧
    ∀ e ∈ top.maps, ∃ d ∈ (readGeoMapListFromJSONFile disk true (some top) st0).geoMaps,
      d.objectName = entryName e := by
  obtain ⟨_, hnodup, hent, _, _⟩ := reconcile_master disk top st0 hE hW hN hU1 hU2
  exact ⟨hnodup, fun e he => (hent e he).imp (fun d hd => ⟨hd.1, hd.2.1⟩)⟩

/-- Claim C1 witness: `reconcile_unique_names` at a manifest with two entries
of distinct stems reconciled into an empty group. -/
theorem reconcile_unique_names_witness :
    (namesOf (readGeoMapListFromJSONFile [] true
      (some ⟨"http://b", [⟨"europe/lakes.geojson", 1000, "20230101"⟩,
                          ⟨"africa/rivers.geojson", 2000, "20230102"⟩]⟩)
      ⟨[], [], [], [], 0⟩).geoMaps).Nodup ∧
    ∀ e ∈ (⟨"http://b", [⟨"europe/lakes.geojson", 1000, "20230101"⟩,
                         ⟨"africa/rivers.geojson", 2000, "20230102"⟩]⟩ : JsonTop).maps,
      ∃ d ∈ (readGeoMapListFromJSONFile [] true
        (some ⟨"http://b", [⟨"europe/lakes.geojson", 1000, "20230101"⟩,
                            ⟨"africa/rivers.geojson", 2000, "20230102"⟩]⟩)
        ⟨[], [], [], [], 0⟩).geoMaps, d.objectName = entryName e :=
  reconcile_unique_names []
    ⟨"http://b", [⟨"europe/lakes.geojson", 1000, "20230101"⟩,
                  ⟨"africa/rivers.geojson", 2000, "20230102"⟩]⟩
    ⟨[], [], [], [], 0⟩
    (by decide) ⟨by decide, by decide⟩ (by decide) (by decide) (by decide)

theorem checkAndEmit_stable (ms : List AggMember) (c : AggCache) :
    (checkAndEmitSignals ms (checkAndEmitSignals ms c).1).2 = [] := by
  simp [checkAndEmitSignals]

/-- Claim C5 (amended): reconciling a second time with the identical parsed
manifest is a no-op — the whole group state (so in particular the set of
Resources: none created, none deleted) is unchanged, and the group aggregator,
whose cache was overwritten after the first pass, emits no change
notification after the second pass under any view of the state as a member
list — provided the same no-name-collision hypotheses as for the uniqueness
invariant.  (Without them the second pass can delete a Resource; see the
counterexample.) -/
theorem reconcile_idempotent_no_collision (disk : List String) (top : JsonTop)
    (st0 : RecoState)
    (hE : (top.maps.map entryName).Nodup)
    (hW : WFr st0)
    (hN : (namesOf st0.geoMaps).Nodup)
    (hU1 : ((unattachedFilesOf disk (manifestPhase disk top st0).geoMaps).map
      unattachedObjectName).Nodup)
    (hU2 : ∀ n ∈ (unattachedFilesOf disk (manifestPhase disk top st0).geoMaps).map
      unattachedObjectName, n ∉ namesOf (manifestPhase disk top st0).geoMaps) :
    readGeoMapListFromJSONFile disk true (some top)
      (readGeoMapListFromJSONFile disk true (some top) st0) =
      readGeoMapListFromJSONFile disk true (some top) st0 ∧
    ∀ (c : AggCache) (view : RecoState → List AggMember),
      (checkAndEmitSignals
        (view (readGeoMapListFromJSONFile disk true (some top)
          (readGeoMapListFromJSONFile disk true (some top) st0)))
        (checkAndEmitSignals
          (view (readGeoMapListFromJSONFile disk true (some top) st0)) c).1).2 = [] := by
  obtain ⟨hWF1, hNames1, hEnt1, hCov1, hDisk1⟩ :=
    reconcile_master disk top st0 hE hW hN hU1 hU2
  set st1 := readGeoMapListFromJSONFile disk true (some top) st0 with hst1
  have hpass : readGeoMapListFromJSONFile disk true (some top) st1 = st1 := by
    rcases hr : top.maps.foldl (processEntry top.url) (st1, downloadables st1.geoMaps)
      with ⟨stF, oldF⟩
    have hid := entryFold_id top.url top.maps st1 (downloadables st1.geoMaps) hWF1
      (((sortLe_perm dlLe st1.geoMaps).map (fun d => d.objectName)).nodup_iff.mpr hNames1)
      (fun d hd => mem_downloadables.mp hd)
      hE
      (fun e he => (hEnt1 e he).imp
        (fun d hd => ⟨mem_downloadables.mpr hd.1, hd.2.1, hd.2.2.1, hd.2.2.2⟩))
    rw [hr] at hid
    have hstF : stF = st1 := hid.1
    have hK2 := entryFold_main top.url top.maps st1 (downloadables st1.geoMaps) []
      stF oldF hr (by simpa using hE) hWF1 hNames1
      (fun d hd => mem_downloadables.mp hd)
      (((sortLe_perm dlLe st1.geoMaps).map (fun d => d.objectName)).nodup_iff.mpr hNames1)
      (by simp)
      (fun d hd => Or.inl (mem_downloadables.mpr hd))
      (by simp)
    simp only [List.nil_append] at hK2
    obtain ⟨_, _, hOldSub2, _, hOldNames2, _, _⟩ := hK2
    have hkeepAll : ∀ x ∈ oldF, (fun d => hasFile disk d) x = true := by
      intro x hx
      have hx1 : x ∈ st1.geoMaps := by
        have hxF := hOldSub2 x hx
        rw [hstF] at hxF
        exact hxF
      rcases hCov1 x hx1 with hxn | hxf
      · exact absurd hxn (hOldNames2 x hx)
      · exact hxf
    have hphase2 : manifestPhase disk top st1 = deleteLeftovers disk stF oldF := by
      simp only [manifestPhase]
      rw [hr]
    have hdel : deleteLeftovers disk stF oldF = stF :=
      condRemove_id_of_all_keep _ oldF stF hkeepAll
    have hfiles2 : unattachedFilesOf disk st1.geoMaps = [] := by
      unfold unattachedFilesOf
      rw [List.filter_eq_nil_iff]
      intro p hp hall
      obtain ⟨d, hd, hdp⟩ := hDisk1 p hp
      have hbe := List.all_eq_true.mp hall d (mem_downloadables.mpr hd)
      rw [hdp] at hbe
      exact (bne_iff_ne.mp hbe) rfl
    calc readGeoMapListFromJSONFile disk true (some top) st1
        = addUnattached disk (manifestPhase disk top st1) := rfl
      _ = addUnattached disk st1 := by rw [hphase2, hdel, hstF]
      _ = st1 := by
          unfold addUnattached
          rw [hfiles2]
          rfl
  refine ⟨hpass, ?_⟩
  intro c view
  rw [hpass]
  exact checkAndEmit_stable _ _

/-- Claim C5 witness: `reconcile_idempotent_no_collision` at the two-entry
distinct-stem manifest reconciled into an empty group, with the aggregate
check instantiated at the empty cache and the trivial view. -/
theorem reconcile_idempotent_no_collision_witness :
    readGeoMapListFromJSONFile [] true
      (some ⟨"http://b", [⟨"europe/lakes.geojson", 1000, "20230101"⟩,
                          ⟨"africa/rivers.geojson", 2000, "20230102"⟩]⟩)
      (readGeoMapListFromJSONFile [] true
        (some ⟨"http://b", [⟨"europe/lakes.geojson", 1000, "20230101"⟩,
                            ⟨"africa/rivers.geojson", 2000, "20230102"⟩]⟩)
        ⟨[], [], [], [], 0⟩) =
      readGeoMapListFromJSONFile [] true
        (some ⟨"http://b", [⟨"europe/lakes.geojson", 1000, "20230101"⟩,
                            ⟨"africa/rivers.geojson", 2000, "20230102"⟩]⟩)
        ⟨[], [], [], [], 0⟩ ∧
    (checkAndEmitSignals
      ((fun st => st.geoMaps.map
        (fun d => ⟨TransferState.idle, false, d.fileName, false, 0⟩))
        (readGeoMapListFromJSONFile [] true
          (some ⟨"http://b", [⟨"europe/lakes.geojson", 1000, "20230101"⟩,
                              ⟨"africa/rivers.geojson", 2000, "20230102"⟩]⟩)
          (readGeoMapListFromJSONFile [] true
            (some ⟨"http://b", [⟨"europe/lakes.geojson", 1000, "20230101"⟩,
                                ⟨"africa/rivers.geojson", 2000, "20230102"⟩]⟩)
            ⟨[], [], [], [], 0⟩)))
      (checkAndEmitSignals
        ((fun st => st.geoMaps.map
          (fun d => ⟨TransferState.idle, false, d.fileName, false, 0⟩))
          (readGeoMapListFromJSONFile [] true
            (some ⟨"http://b", [⟨"europe/lakes.geojson", 1000, "20230101"⟩,
                                ⟨"africa/rivers.geojson", 2000, "20230102"⟩]⟩)
            ⟨[], [], [], [], 0⟩))
        ⟨false, false, false, [], ""⟩).1).2 = [] :=
  ⟨(reconcile_idempotent_no_collision []
      ⟨"http://b", [⟨"europe/lakes.geojson", 1000, "20230101"⟩,
                    ⟨"africa/rivers.geojson", 2000, "20230102"⟩]⟩
      ⟨[], [], [], [], 0⟩
      (by decide) ⟨by decide, by decide⟩ (by decide) (by decide) (by decide)).1,
   (reconcile_idempotent_no_collision []
      ⟨"http://b", [⟨"europe/lakes.geojson", 1000, "20230101"⟩,
                    ⟨"africa/rivers.geojson", 2000, "20230102"⟩]⟩
      ⟨[], [], [], [], 0⟩
      (by decide) ⟨by decide, by decide⟩ (by decide) (by decide) (by decide)).2
     ⟨false, false, false, [], ""⟩
     (fun st => st.geoMaps.map
       (fun d => ⟨TransferState.idle, false, d.fileName, false, 0⟩))⟩
